import Mathlib

/-!
Verification of `crates/core/tedge_write/src/bin.rs` (the `tedge-write` helper).

The program (`run`) validates a destination path (absolute, lexically canonical),
parses an octal mode string, resolves optional user/group names to numeric ids,
optionally materializes missing parent directories, and finally writes the bytes
from standard input to the destination atomically.

We embed the program shallowly:
* paths are character lists, parsed into `Component` lists exactly as Rust's
  `std::path::Path::components()` does on Unix (repeated separators collapsed,
  `.` components dropped except a leading one of a relative path);
* `path_clean::clean` (v1.x) is translated component-for-component;
* the filesystem is an association list from component paths to nodes;
* OS failures of `create_dir` / `set_permissions` / `chown` are injected by a
  `RunEnv` oracle, since which syscall fails is outside the program's control;
* the atomic writer lives in `tedge_utils` (outside the sources verified here)
  and is modelled from the specification, see `writeFileAtomicModel`.
-/

namespace TedgeWrite

/-- A path component, as in `std::path::Component` restricted to Unix paths
(no `Prefix` component exists on Unix). -/
inductive Component where
  | rootDir : Component
  | curDir : Component
  | parentDir : Component
  | normal : List Char → Component
deriving DecidableEq

/-- Split a character list on `'/'`, keeping empty chunks, mirroring
`str::split('/')`: `"" ↦ [""]`, `"a/b" ↦ ["a","b"]`, `"/a" ↦ ["", "a"]`. -/
def splitSlash : List Char → List (List Char)
  | [] => [[]]
  | c :: cs =>
    if c = '/' then [] :: splitSlash cs
    else
      match splitSlash cs with
      | [] => [[c]]
      | chunk :: rest => (c :: chunk) :: rest

/-- The non-empty chunks of a path string: what survives separator collapsing
in `Path::components()`. -/
def nonEmptyChunks (p : List Char) : List (List Char) :=
  (splitSlash p).filter (fun s => !s.isEmpty)

/-- Interpretation of one non-empty chunk as a component: `"."` is normalized
away, `".."` is `ParentDir`, anything else is a `Normal` component. -/
def strComp (s : List Char) : Option Component :=
  if s = ['.'] then none
  else if s = ['.', '.'] then some .parentDir
  else some (.normal s)

/-- `Path::components()` on Unix: a leading `/` yields `RootDir`; a leading `.`
of a relative path is kept as `CurDir`; all other `.` chunks are dropped and
empty chunks (repeated or trailing separators) are ignored. -/
def parseComps (p : List Char) : List Component :=
  if p.head? = some '/' then
    .rootDir :: (nonEmptyChunks p).filterMap strComp
  else
    match nonEmptyChunks p with
    | [] => []
    | first :: rest =>
      if first = ['.'] then .curDir :: ((first :: rest).filterMap strComp)
      else (first :: rest).filterMap strComp

/-- The characters a component contributes when a component list is collected
back into a path (`PathBuf::from_iter`). -/
def compChars : Component → List Char
  | .rootDir => []
  | .curDir => ['.']
  | .parentDir => ['.', '.']
  | .normal s => s

/-- Join chunks with `'/'` separators. -/
def intercalateSlash : List (List Char) → List Char
  | [] => []
  | [s] => s
  | s :: t :: rest => s ++ '/' :: intercalateSlash (t :: rest)

/-- Collect a component list back into a path string
(`out.iter().collect::<PathBuf>()`). -/
def renderComps (cs : List Component) : List Char :=
  match cs with
  | .rootDir :: rest => '/' :: intercalateSlash (rest.map compChars)
  | _ => intercalateSlash (cs.map compChars)

/-- One step of `path_clean::clean`'s fold over components; the accumulator is
kept in reverse order (head = most recently pushed), so Rust's `out.last()` is
our head. `CurDir` is dropped; `ParentDir` is a no-op after `RootDir`, pops a
`Normal`, and is pushed otherwise; everything else is pushed. -/
def cleanStep (out : List Component) (c : Component) : List Component :=
  match c with
  | .curDir => out
  | .parentDir =>
    match out with
    | .rootDir :: _ => out
    | .normal _ :: rest => rest
    | _ => .parentDir :: out
  | _ => c :: out

/-- The component-level part of `path_clean::clean`. -/
def cleanComps (cs : List Component) : List Component :=
  (cs.foldl cleanStep []).reverse

/-- `path_clean::clean` on character lists: fold the components, then collect;
an empty result renders as `"."`. -/
def cleanChars (p : List Char) : List Char :=
  match cleanComps (parseComps p) with
  | [] => ['.']
  | out => renderComps out

/-- `path_clean::clean` on strings. -/
def clean (p : String) : String := String.mk (cleanChars p.data)

/-- `Utf8Path::is_absolute` on Unix: the path has a root. -/
def isAbsolute (p : String) : Bool :=
  match p.data with
  | '/' :: _ => true
  | _ => false

/-- The error kinds `run` can produce (each `bail!`/`?` site gets one kind). -/
inductive RunError where
  | notAbsolute : RunError
  | notCanonical : RunError
  | invalidMode : RunError
  | unknownUser : RunError
  | unknownGroup : RunError
  | createDirFailed : RunError
  | setPermissionsFailed : RunError
  | chownFailed : RunError
  | writeFailed : RunError
deriving DecidableEq

/-- The validation at the top of `run` (bin.rs lines 64–78): reject non-absolute
paths, compute the cleaned path, and reject the input if it differs from its
cleaned form — where, as in the Rust source, the comparison
`target_filepath != *args.destination_path` compares `Utf8PathBuf`s, i.e.
component sequences, not raw strings. -/
def validateDest (p : String) : Except RunError String :=
  if isAbsolute p = false then .error .notAbsolute
  else
    let target := clean p
    if parseComps target.data ≠ parseComps p.data then .error .notCanonical
    else .ok target

/-- A component name as produced by parsing: non-empty, not `"."`, not `".."`,
and containing no separator. -/
def goodName (s : List Char) : Prop :=
  s ≠ [] ∧ s ≠ ['.'] ∧ s ≠ ['.', '.'] ∧ '/' ∉ s

/-- A component list consisting only of `Normal` components with good names. -/
def goodTail (l : List Component) : Prop :=
  ∀ c ∈ l, ∃ s, c = .normal s ∧ goodName s

-- sanity checks of the path semantics (same results as the Rust code)
example : parseComps "/a//b".data = [.rootDir, .normal ['a'], .normal ['b']] := by decide
example : parseComps "/a/./b".data = [.rootDir, .normal ['a'], .normal ['b']] := by decide
example : parseComps "./a".data = [.curDir, .normal ['a']] := by decide
example : clean "/a/../b" = "/b" := by decide
example : clean "/.." = "/" := by decide
example : clean "/a//b/" = "/a/b" := by decide
example : validateDest "/a/b" = .ok "/a/b" := rfl
example : validateDest "a/b" = .error .notAbsolute := rfl
example : validateDest "/a/../b" = .error .notCanonical := rfl
example : validateDest "/a//b" = .ok "/a/b" := rfl
example : validateDest "/a/./b" = .ok "/a/b" := rfl
example : validateDest "/" = .ok "/" := rfl

/-! ## The filesystem model

A filesystem is an association list from component paths to nodes. Files carry
their content (a byte list) and metadata, directories carry metadata. -/

/-- Owner, group and permission bits of a filesystem node. -/
structure FileMeta where
  uid : Nat
  gid : Nat
  mode : Nat
deriving DecidableEq

/-- A filesystem node: regular file (with content) or directory. -/
inductive Node where
  | file : List Nat → FileMeta → Node
  | dir : FileMeta → Node
deriving DecidableEq

/-- A filesystem state: a finite map from component paths to nodes, as an
association list (first binding wins). -/
abbrev Fs : Type := List (List Component × Node)

/-- Look a path up in the filesystem. -/
def lookupFs : Fs → List Component → Option Node
  | [], _ => none
  | (k, v) :: rest, p => if k = p then some v else lookupFs rest p

/-- Insert or overwrite the node stored at a path. -/
def setFs : Fs → List Component → Node → Fs
  | [], p, v => [(p, v)]
  | (k, w) :: rest, p, v =>
    if k = p then (k, v) :: rest else (k, w) :: setFs rest p v

/-- `std::fs::set_permissions`'s effect on the state: replace the mode of the
node at `p` (no effect on a missing path; the syscall-level failure is injected
separately by the environment oracle). -/
def chmodFs (fs : Fs) (p : List Component) (m : Nat) : Fs :=
  match lookupFs fs p with
  | some (.file c meta) => setFs fs p (.file c { meta with mode := m })
  | some (.dir meta) => setFs fs p (.dir { meta with mode := m })
  | none => fs

/-- `std::os::unix::fs::chown`'s effect on the state: replace owner/group of
the node at `p`; a `none` id leaves the corresponding id unchanged. -/
def chownFs (fs : Fs) (p : List Component) (uid gid : Option Nat) : Fs :=
  match lookupFs fs p with
  | some (.file c meta) =>
    setFs fs p (.file c { meta with uid := uid.getD meta.uid, gid := gid.getD meta.gid })
  | some (.dir meta) =>
    setFs fs p (.dir { meta with uid := uid.getD meta.uid, gid := gid.getD meta.gid })
  | none => fs

/-- The environment an invocation runs in: the user/group databases consulted by
`uzers`, the process defaults that apply where the program sets nothing (owner
and group of newly created nodes, the mode a freshly created directory or
temporary file gets before/without an explicit `chmod`), and oracles injecting
the OS-level failures of `create_dir`, `set_permissions` and `chown`. -/
structure RunEnv where
  users : List (String × Nat)
  groups : List (String × Nat)
  defUid : Nat
  defGid : Nat
  defDirMode : Nat
  defFileMode : Nat
  createFails : List Component → Bool
  chmodFails : List Component → Bool
  chownFails : List Component → Bool

/-- `uzers::get_user_by_name` / `get_group_by_name`: an association-list lookup
in the environment's database. -/
def alookup : List (String × Nat) → String → Option Nat
  | [], _ => none
  | (k, v) :: rest, s => if k = s then some v else alookup rest s

/-- The digit part of `u32::from_str_radix(m, 8)`: at least one octal digit,
value below `2^32` (an overflowing value errors). -/
def parseOctalCore (l : List Char) : Option Nat :=
  if l = [] then none
  else if l.all (fun c => '0' ≤ c ∧ c ≤ '7') then
    let v := l.foldl (fun a c => a * 8 + (c.toNat - 48)) 0
    if v < 4294967296 then some v else none
  else none

/-- `u32::from_str_radix(m, 8)`: an optional leading `'+'` sign, then octal
digits. For unsigned types Rust strips no `'-'` sign, so a leading `'-'` falls
through to the digit check and fails as an invalid digit (`"-0"` is an error). -/
def parseOctal (s : String) : Option Nat :=
  match s.data with
  | '+' :: rest => parseOctalCore rest
  | l => parseOctalCore l

/-- `Utf8Path::parent`: drop the final component; `None` for the root path and
the empty path. -/
def parentPath (l : List Component) : Option (List Component) :=
  if l = [] ∨ l = [.rootDir] then none else some l.dropLast

/-- The directory walk of `run` (bin.rs lines 101–121): iterate the components
of the parent directory, accumulating the running path `current`; skip a step
whose path exists; otherwise `create_dir` it (the new directory gets the
process-default metadata), `set_permissions` it to `0o755`, and, if a uid or a
gid was requested, `chown` it. Each syscall aborts the walk on (injected)
failure; the state reached so far is kept. -/
def mkdirs (env : RunEnv) (uid gid : Option Nat) :
    Fs → List Component → List Component → Except (RunError × Fs) Fs
  | fs, _, [] => .ok fs
  | fs, current, c :: rest =>
    let cur := current ++ [c]
    if (lookupFs fs cur).isSome then mkdirs env uid gid fs cur rest
    else if env.createFails cur then .error (.createDirFailed, fs)
    else
      let fs1 := setFs fs cur (.dir ⟨env.defUid, env.defGid, env.defDirMode⟩)
      if env.chmodFails cur then .error (.setPermissionsFailed, fs1)
      else
        let fs2 := chmodFs fs1 cur 493
        if uid.isSome || gid.isSome then
          if env.chownFails cur then .error (.chownFailed, fs2)
          else mkdirs env uid gid (chownFs fs2 cur uid gid) cur rest
        else mkdirs env uid gid fs2 cur rest

/-- The permissions to apply if the destination file does not exist
(`tedge_utils::atomic::MaybePermissions`, constructed at bin.rs line 126). -/
structure MaybePermissions where
  uid : Option Nat
  gid : Option Nat
  mode : Option Nat
deriving DecidableEq

/-- Does a directory exist at `p`? -/
def isDirAt (fs : Fs) (p : List Component) : Bool :=
  match lookupFs fs p with
  | some (.dir _) => true
  | _ => false

/-- Modelled from the spec: the body of
`tedge_utils::atomic::write_file_atomic_set_permissions_if_doesnt_exist` is not
among the sources under verification (only its call site in bin.rs is), so its
effect on the final state is modelled from §4.3 of the specification: a
temporary file is created in the destination's directory (so the parent must
exist as a directory) and filled with the input bytes; if the destination did
not exist beforehand, the pending mode (if present) and uid/gid (if present,
missing ids defaulting to the process identity) are applied to the temporary
file, which is then renamed onto the destination; if the destination did exist,
none of the pending fields is applied and the rename preserves the existing
metadata, replacing only the content. A directory at the destination makes the
write fail; failure leaves the state unchanged (the temporary file is removed). -/
def writeFileAtomicModel (env : RunEnv) (fs : Fs) (dest : List Component)
    (input : List Nat) (perm : MaybePermissions) : Option Fs :=
  match parentPath dest with
  | none => none
  | some par =>
    if isDirAt fs par then
      match lookupFs fs dest with
      | some (.dir _) => none
      | some (.file _ meta) => some (setFs fs dest (.file input meta))
      | none =>
        some (setFs fs dest
          (.file input
            ⟨perm.uid.getD env.defUid, perm.gid.getD env.defGid,
             perm.mode.getD env.defFileMode⟩))
    else none

/-- Outcome of one invocation: normal success, an error return (`bail!` or `?`),
or a panic (`unwrap` of `None`); each carries the filesystem state left behind. -/
inductive RunResult where
  | ok : Fs → RunResult
  | error : RunError → Fs → RunResult
  | panicked : Fs → RunResult
deriving DecidableEq

/-- The filesystem state an outcome leaves behind. -/
def resultFs : RunResult → Fs
  | .ok fs => fs
  | .error _ fs => fs
  | .panicked fs => fs

/-- The command-line arguments of `tedge-write` (the `Args` struct of bin.rs,
without the logging arguments, which are external to the verified core). -/
structure Args where
  destination_path : String
  mode : Option String
  user : Option String
  group : Option String
  makedirs : Bool

/-- The `makedirs` block of `run` (bin.rs lines 97–123): when requested, take
the parent of the target (panicking, via `unwrap`, when the target is the
root), and if that parent does not exist, walk its components with `mkdirs`.
When not requested, or the parent exists, the filesystem is untouched. -/
def ensureDirs (env : RunEnv) (uid gid : Option Nat) (fs : Fs) (makedirs : Bool)
    (tc : List Component) : RunResult :=
  if makedirs then
    match parentPath tc with
    | none => .panicked fs
    | some dir =>
      if (lookupFs fs dir).isSome then .ok fs
      else
        match mkdirs env uid gid fs [] dir with
        | .error (e, fs') => .error e fs'
        | .ok fs' => .ok fs'
  else .ok fs

/-- Everything `run` does after path validation, given the cleaned target path
(bin.rs lines 80–137): parse the octal mode, resolve the user then the group
name, optionally materialize the parent directory chain (panicking on
`parent().unwrap()` if the target is the root), then write atomically. -/
def runWithTarget (env : RunEnv) (fs : Fs) (args : Args) (target : String)
    (input : List Nat) : RunResult :=
  match args.mode with
  | some m =>
    match parseOctal m with
    | none => .error .invalidMode fs
    | some mv => runWithMode env fs args target input (some mv)
  | none => runWithMode env fs args target input none
where
  runWithMode (env : RunEnv) (fs : Fs) (args : Args) (target : String)
      (input : List Nat) (mode : Option Nat) : RunResult :=
    match args.user with
    | some u =>
      match alookup env.users u with
      | none => .error .unknownUser fs
      | some uv => runWithUid env fs args target input mode (some uv)
    | none => runWithUid env fs args target input mode none
  runWithUid (env : RunEnv) (fs : Fs) (args : Args) (target : String)
      (input : List Nat) (mode uid : Option Nat) : RunResult :=
    match args.group with
    | some g =>
      match alookup env.groups g with
      | none => .error .unknownGroup fs
      | some gv => runResolved env fs args target input mode uid (some gv)
    | none => runResolved env fs args target input mode uid none
  runResolved (env : RunEnv) (fs : Fs) (args : Args) (target : String)
      (input : List Nat) (mode uid gid : Option Nat) : RunResult :=
    let tc := parseComps target.data
    match ensureDirs env uid gid fs args.makedirs tc with
    | .ok fs' =>
      match writeFileAtomicModel env fs' tc input ⟨uid, gid, mode⟩ with
      | some fs'' => .ok fs''
      | none => .error .writeFailed fs'
    | r => r

/-- `run` (bin.rs lines 46–138): validate the destination path, then proceed
with the cleaned target. Logging initialization is external and effect-free on
the filesystem, so it is not modelled. -/
def run (env : RunEnv) (fs : Fs) (args : Args) (input : List Nat) : RunResult :=
  match validateDest args.destination_path with
  | .error e => .error e fs
  | .ok target => runWithTarget env fs args target input

/-- The filesystem state reached by the directory walk, whether it succeeded
or stopped at an error. -/
def exceptFs : Except (RunError × Fs) Fs → Fs
  | .ok fs => fs
  | .error (_, fs) => fs

/-! ## Concrete fixtures used by witnesses -/

/-- A concrete environment: one user `alice` (uid 1000), one group `staff`
(gid 50), process identity `0:0`, default directory mode `0700` and default
file mode `0600`, and no injected syscall failures. -/
def wEnv : RunEnv :=
  ⟨[("alice", 1000)], [("staff", 50)], 0, 0, 448, 384,
   fun _ => false, fun _ => false, fun _ => false⟩

/-- The component path `/a`. -/
def wA : List Component := [.rootDir, .normal ['a']]

/-- The component path `/a/b`. -/
def wAB : List Component := [.rootDir, .normal ['a'], .normal ['b']]

/-- The component path `/a/b/c`. -/
def wABC : List Component := [.rootDir, .normal ['a'], .normal ['b'], .normal ['c']]

/-- A concrete filesystem containing the root directory and `/a`. -/
def wFs : Fs := [([.rootDir], .dir ⟨0, 0, 493⟩), (wA, .dir ⟨0, 0, 493⟩)]

/-- Like `wFs`, but with a pre-existing file at `/a/b` (content `[9]`, owned by
`7:8`, mode `0644`). -/
def wFsB : Fs :=
  [([.rootDir], .dir ⟨0, 0, 493⟩), (wA, .dir ⟨0, 0, 493⟩),
   (wAB, .file [9] ⟨7, 8, 420⟩)]

/-- Like `wEnv`, but `set_permissions` fails on the path `/a/b/c`. -/
def wEnvFail : RunEnv :=
  ⟨[("alice", 1000)], [("staff", 50)], 0, 0, 448, 384,
   fun _ => false, fun p => decide (p = wABC), fun _ => false⟩

/-- The state `wEnvFail`'s failing walk leaves behind: `/a/b` fully set up,
`/a/b/c` created but with its creation-default metadata (its `chmod` failed). -/
def wFsAfterFail : Fs :=
  setFs (setFs wFs wAB (.dir ⟨1000, 0, 493⟩)) wABC (.dir ⟨0, 0, 448⟩)

/-! ## Lemmas about path parsing and cleaning -/

theorem bool_eq_false {b : Bool} (h : ¬ b = true) : b = false := by
  cases b
  · rfl
  · exact absurd rfl h

theorem splitSlash_ne_nil (p : List Char) : splitSlash p ≠ [] := by
  cases p with
  | nil => simp [splitSlash]
  | cons c cs =>
    simp only [splitSlash]
    split
    · simp
    · split <;> simp

theorem mem_splitSlash_no_slash (p : List Char) :
    ∀ s ∈ splitSlash p, '/' ∉ s := by
  induction p with
  | nil =>
    intro s hs
    simp only [splitSlash, List.mem_singleton] at hs
    simp [hs]
  | cons c cs ih =>
    intro s hs
    simp only [splitSlash] at hs
    by_cases hc : c = '/'
    · rw [if_pos hc] at hs
      rcases List.mem_cons.mp hs with h | h
      · simp [h]
      · exact ih s h
    · rw [if_neg hc] at hs
      rcases hsp : splitSlash cs with _ | ⟨chunk, rest⟩
      · exact absurd hsp (splitSlash_ne_nil cs)
      · rw [hsp] at hs
        rcases List.mem_cons.mp hs with h | h
        · subst h
          intro hmem
          rcases List.mem_cons.mp hmem with h' | h'
          · exact hc h'.symm
          · exact ih chunk (by rw [hsp]; exact List.mem_cons_self _ _) h'
        · exact ih s (by rw [hsp]; exact List.mem_cons_of_mem _ h)

theorem splitSlash_cons_ne (c : Char) (hc : c ≠ '/') (xs : List Char) :
    splitSlash (c :: xs) =
      (c :: (splitSlash xs).headD []) :: (splitSlash xs).tail := by
  simp only [splitSlash, if_neg hc]
  rcases h : splitSlash xs with _ | ⟨chunk, rest⟩
  · exact absurd h (splitSlash_ne_nil xs)
  · simp

theorem splitSlash_no_slash (n : List Char) (h : '/' ∉ n) : splitSlash n = [n] := by
  induction n with
  | nil => rfl
  | cons c cs ih =>
    have hc : c ≠ '/' := fun hh => h (hh ▸ List.mem_cons_self _ _)
    have hcs : '/' ∉ cs := fun hh => h (List.mem_cons_of_mem _ hh)
    rw [splitSlash_cons_ne c hc, ih hcs]
    simp

theorem splitSlash_append (n : List Char) (h : '/' ∉ n) (rest : List Char) :
    splitSlash (n ++ '/' :: rest) = n :: splitSlash rest := by
  induction n with
  | nil => simp [splitSlash]
  | cons c cs ih =>
    have hc : c ≠ '/' := fun hh => h (hh ▸ List.mem_cons_self _ _)
    have hcs : '/' ∉ cs := fun hh => h (List.mem_cons_of_mem _ hh)
    rw [List.cons_append, splitSlash_cons_ne c hc, ih hcs]
    simp

theorem chunks_intercalate (ns : List (List Char))
    (h : ∀ n ∈ ns, n ≠ [] ∧ '/' ∉ n) :
    nonEmptyChunks (intercalateSlash ns) = ns := by
  induction ns with
  | nil => simp [intercalateSlash, splitSlash, nonEmptyChunks]
  | cons n rest ih =>
    have hn := h n (List.mem_cons_self _ _)
    cases rest with
    | nil =>
      unfold nonEmptyChunks
      rw [intercalateSlash, splitSlash_no_slash n hn.2]
      rcases n with _ | ⟨c, cs⟩
      · exact absurd rfl hn.1
      · simp [List.filter_cons]
    | cons m rest' =>
      unfold nonEmptyChunks
      rw [intercalateSlash, splitSlash_append n hn.2, List.filter_cons]
      have hne : (!n.isEmpty) = true := by
        rcases n with _ | ⟨c, cs⟩
        · exact absurd rfl hn.1
        · rfl
      rw [if_pos hne]
      have := ih (fun x hx => h x (List.mem_cons_of_mem _ hx))
      unfold nonEmptyChunks at this
      rw [this]

theorem parseComps_absolute (p : List Char) (h : p.head? = some '/') :
    parseComps p = .rootDir :: (nonEmptyChunks p).filterMap strComp := by
  simp [parseComps, h]

theorem tail_elems_good (p : List Char) :
    ∀ c ∈ (nonEmptyChunks p).filterMap strComp,
      c = .parentDir ∨ ∃ s, c = .normal s ∧ goodName s := by
  intro c hc
  rcases List.mem_filterMap.mp hc with ⟨s, hs, hsc⟩
  have hmem := (List.mem_filter.mp hs).1
  have hflt := (List.mem_filter.mp hs).2
  have hne : s ≠ [] := by
    rcases s with _ | ⟨a, as⟩
    · simp at hflt
    · simp
  have hslash : '/' ∉ s := mem_splitSlash_no_slash p s hmem
  unfold strComp at hsc
  by_cases h1 : s = ['.']
  · rw [if_pos h1] at hsc
    exact absurd hsc (by simp)
  · rw [if_neg h1] at hsc
    by_cases h2 : s = ['.', '.']
    · rw [if_pos h2] at hsc
      exact Or.inl (Option.some.inj hsc).symm
    · rw [if_neg h2] at hsc
      exact Or.inr ⟨s, (Option.some.inj hsc).symm, hne, h1, h2, hslash⟩

theorem foldl_cleanStep_normals (l : List Component) (hl : goodTail l) :
    ∀ acc, l.foldl cleanStep acc = l.reverse ++ acc := by
  induction l with
  | nil => intro acc; simp
  | cons c rest ih =>
    intro acc
    rcases hl c (List.mem_cons_self _ _) with ⟨s, rfl, _⟩
    rw [List.foldl_cons]
    have hstep : cleanStep acc (.normal s) = .normal s :: acc := rfl
    rw [hstep, ih (fun x hx => hl x (List.mem_cons_of_mem _ hx))]
    simp

theorem cleanComps_abs_noparent (l : List Component) (hl : goodTail l) :
    cleanComps (.rootDir :: l) = .rootDir :: l := by
  unfold cleanComps
  rw [List.foldl_cons]
  have h0 : cleanStep [] .rootDir = [.rootDir] := rfl
  rw [h0, foldl_cleanStep_normals l hl]
  simp

theorem foldl_cleanStep_invariant (l : List Component)
    (hl : ∀ c ∈ l, c = .parentDir ∨ ∃ s, c = .normal s ∧ goodName s) :
    ∀ g, goodTail g →
      ∃ g', l.foldl cleanStep (g ++ [.rootDir]) = g' ++ [.rootDir] ∧ goodTail g' := by
  induction l with
  | nil => intro g hg; exact ⟨g, rfl, hg⟩
  | cons c rest ih =>
    intro g hg
    have hrest := fun x hx => hl x (List.mem_cons_of_mem c hx)
    rcases hl c (List.mem_cons_self _ _) with rfl | ⟨s, rfl, hs⟩
    · rw [List.foldl_cons]
      cases g with
      | nil =>
        have hstep : cleanStep (([] : List Component) ++ [.rootDir]) .parentDir =
            ([] : List Component) ++ [.rootDir] := rfl
        rw [hstep]
        exact ih hrest [] hg
      | cons d g' =>
        rcases hg d (List.mem_cons_self _ _) with ⟨t, rfl, _⟩
        have hstep : cleanStep ((Component.normal t :: g') ++ [.rootDir]) .parentDir =
            g' ++ [.rootDir] := rfl
        rw [hstep]
        exact ih hrest g' (fun x hx => hg x (List.mem_cons_of_mem _ hx))
    · rw [List.foldl_cons]
      have hstep : cleanStep (g ++ [.rootDir]) (.normal s) =
          (Component.normal s :: g) ++ [.rootDir] := rfl
      rw [hstep]
      refine ih hrest (Component.normal s :: g) ?_
      intro x hx
      rcases List.mem_cons.mp hx with rfl | hx'
      · exact ⟨s, rfl, hs⟩
      · exact hg x hx'

theorem cleanComps_abs_structure (l : List Component)
    (hl : ∀ c ∈ l, c = .parentDir ∨ ∃ s, c = .normal s ∧ goodName s) :
    ∃ l', cleanComps (.rootDir :: l) = .rootDir :: l' ∧ goodTail l' := by
  unfold cleanComps
  rw [List.foldl_cons]
  have h0 : cleanStep [] .rootDir = ([] : List Component) ++ [.rootDir] := rfl
  rw [h0]
  rcases foldl_cleanStep_invariant l hl [] (by intro x hx; simp at hx) with ⟨g', hfold, hg'⟩
  rw [hfold]
  refine ⟨g'.reverse, by simp, ?_⟩
  intro x hx
  exact hg' x (by simpa using hx)

theorem map_compChars_normals (l : List Component) (hl : goodTail l) :
    (l.map compChars).map Component.normal = l := by
  induction l with
  | nil => rfl
  | cons c rest ih =>
    rcases hl c (List.mem_cons_self _ _) with ⟨s, rfl, _⟩
    simp only [List.map_cons, compChars]
    rw [ih (fun x hx => hl x (List.mem_cons_of_mem _ hx))]

theorem filterMap_strComp_good (ns : List (List Char))
    (h : ∀ n ∈ ns, n ≠ ['.'] ∧ n ≠ ['.', '.']) :
    ns.filterMap strComp = ns.map Component.normal := by
  induction ns with
  | nil => rfl
  | cons n rest ih =>
    have hn := h n (List.mem_cons_self _ _)
    simp only [List.filterMap_cons, strComp, if_neg hn.1, if_neg hn.2, List.map_cons]
    rw [ih (fun x hx => h x (List.mem_cons_of_mem _ hx))]

theorem parseComps_render_abs (l : List Component) (hl : goodTail l) :
    parseComps (renderComps (.rootDir :: l)) = .rootDir :: l := by
  have hgood : ∀ n ∈ l.map compChars, goodName n := by
    intro n hn
    rcases List.mem_map.mp hn with ⟨c, hc, rfl⟩
    rcases hl c hc with ⟨s, rfl, hs⟩
    exact hs
  have hrender : renderComps (.rootDir :: l) = '/' :: intercalateSlash (l.map compChars) := rfl
  rw [hrender]
  rw [parseComps_absolute ('/' :: intercalateSlash (l.map compChars)) (by rfl)]
  have hchunks : nonEmptyChunks ('/' :: intercalateSlash (l.map compChars)) = l.map compChars := by
    unfold nonEmptyChunks
    have hsplit : splitSlash ('/' :: intercalateSlash (l.map compChars)) =
        [] :: splitSlash (intercalateSlash (l.map compChars)) := by
      simp [splitSlash]
    rw [hsplit, List.filter_cons, if_neg (by simp)]
    have := chunks_intercalate (l.map compChars)
      (fun n hn => ⟨(hgood n hn).1, (hgood n hn).2.2.2⟩)
    unfold nonEmptyChunks at this
    rw [this]
  rw [hchunks]
  rw [filterMap_strComp_good _ (fun n hn => ⟨(hgood n hn).2.1, (hgood n hn).2.2.1⟩)]
  rw [map_compChars_normals l hl]

/-! ## Characterization of the validation -/

theorem head_of_isAbsolute (p : String) (h : isAbsolute p = true) :
    p.data.head? = some '/' := by
  unfold isAbsolute at h
  rcases hp : p.data with _ | ⟨c, cs⟩
  · rw [hp] at h; simp at h
  · rw [hp] at h
    rcases hc : c with _
    rw [hc] at h
    revert h
    split
    · rename_i heq
      intro _
      injection heq with h1 h2
      rw [h1]
      rfl
    · intro h; simp at h

theorem validateDest_ok_of_noparent (p : String) (habs : isAbsolute p = true)
    (hnp : Component.parentDir ∉ parseComps p.data) :
    validateDest p = .ok (clean p) := by
  have hhead := head_of_isAbsolute p habs
  have hparse := parseComps_absolute p.data hhead
  have htail : goodTail ((nonEmptyChunks p.data).filterMap strComp) := by
    intro c hc
    rcases tail_elems_good p.data c hc with rfl | hgood
    · exact absurd (hparse ▸ List.mem_cons_of_mem _ hc) hnp
    · exact hgood
  have hclean : cleanChars p.data =
      renderComps (.rootDir :: (nonEmptyChunks p.data).filterMap strComp) := by
    unfold cleanChars
    rw [hparse, cleanComps_abs_noparent _ htail]
  have hround : parseComps (cleanChars p.data) = parseComps p.data := by
    rw [hclean, parseComps_render_abs _ htail, hparse]
  unfold validateDest
  rw [habs]
  simp only [Bool.true_eq_false, if_false]
  have hdata : (clean p).data = cleanChars p.data := rfl
  rw [if_neg]
  intro hne
  exact hne (by rw [hdata, hround])

theorem validateDest_err_of_parent (p : String) (habs : isAbsolute p = true)
    (hp : Component.parentDir ∈ parseComps p.data) :
    validateDest p = .error .notCanonical := by
  have hhead := head_of_isAbsolute p habs
  have hparse := parseComps_absolute p.data hhead
  have helems := tail_elems_good p.data
  rcases cleanComps_abs_structure _ helems with ⟨l', hcc, hl'⟩
  have hclean : cleanChars p.data = renderComps (.rootDir :: l') := by
    unfold cleanChars
    rw [hparse, hcc]
  have hround : parseComps (cleanChars p.data) = .rootDir :: l' := by
    rw [hclean, parseComps_render_abs _ hl']
  have hnotin : Component.parentDir ∉ (Component.rootDir :: l' : List Component) := by
    intro hmem
    rcases List.mem_cons.mp hmem with h | h
    · exact absurd h.symm (by simp)
    · rcases hl' _ h with ⟨s, hs, _⟩
      exact absurd hs (by simp)
  unfold validateDest
  rw [habs]
  simp only [Bool.true_eq_false, if_false]
  have hdata : (clean p).data = cleanChars p.data := rfl
  rw [if_pos]
  intro heq
  rw [hdata, hround] at heq
  exact hnotin (heq ▸ hp)

theorem validateDest_err_of_nonabs (p : String) (habs : isAbsolute p = false) :
    validateDest p = .error .notAbsolute := by
  unfold validateDest
  rw [habs]
  simp

/-! ## Lemmas about the filesystem map -/

theorem lookupFs_setFs_self (fs : Fs) (p : List Component) (v : Node) :
    lookupFs (setFs fs p v) p = some v := by
  induction fs with
  | nil => simp [setFs, lookupFs]
  | cons kv rest ih =>
    obtain ⟨k, w⟩ := kv
    by_cases h : k = p
    · subst h; simp [setFs, lookupFs]
    · simp [setFs, lookupFs, h, ih]

theorem lookupFs_setFs_ne (fs : Fs) (p q : List Component) (v : Node)
    (h : q ≠ p) : lookupFs (setFs fs p v) q = lookupFs fs q := by
  induction fs with
  | nil =>
    simp only [setFs, lookupFs]
    exact if_neg (Ne.symm h)
  | cons kv rest ih =>
    obtain ⟨k, w⟩ := kv
    by_cases hk : k = p
    · subst hk
      simp only [setFs, if_pos rfl, lookupFs]
      rw [if_neg (fun hh => h hh.symm), if_neg (fun hh => h hh.symm)]
    · simp only [setFs, if_neg hk, lookupFs]
      by_cases hq : k = q
      · simp [hq]
      · simp [hq, ih]

theorem setFs_setFs (fs : Fs) (p : List Component) (v w : Node) :
    setFs (setFs fs p v) p w = setFs fs p w := by
  induction fs with
  | nil => simp [setFs]
  | cons kv rest ih =>
    obtain ⟨k, u⟩ := kv
    by_cases h : k = p
    · subst h; simp [setFs]
    · simp [setFs, h, ih]

theorem setFs_lookup_eq (fs : Fs) (p : List Component) (v : Node)
    (h : lookupFs fs p = some v) : setFs fs p v = fs := by
  induction fs with
  | nil => simp [lookupFs] at h
  | cons kv rest ih =>
    obtain ⟨k, w⟩ := kv
    by_cases hk : k = p
    · subst hk
      have hw : w = v := by simpa [lookupFs] using h
      subst hw
      simp [setFs]
    · simp only [lookupFs, if_neg hk] at h
      simp [setFs, hk, ih h]

theorem chmodFs_setFs_dir (fs : Fs) (p : List Component) (m : FileMeta) (v : Nat) :
    chmodFs (setFs fs p (.dir m)) p v = setFs fs p (.dir ⟨m.uid, m.gid, v⟩) := by
  simp [chmodFs, lookupFs_setFs_self, setFs_setFs]

theorem chownFs_setFs_dir (fs : Fs) (p : List Component) (m : FileMeta)
    (uid gid : Option Nat) :
    chownFs (setFs fs p (.dir m)) p uid gid =
      setFs fs p (.dir ⟨uid.getD m.uid, gid.getD m.gid, m.mode⟩) := by
  simp [chownFs, lookupFs_setFs_self, setFs_setFs]

/-- Net effect of `create_dir` + `set_permissions 0o755` + `chown` on one new
directory: a single binding with the final metadata. -/
theorem mkdirs_step_net (fs : Fs) (p : List Component) (d : FileMeta)
    (uid gid : Option Nat) :
    chownFs (chmodFs (setFs fs p (.dir d)) p 493) p uid gid =
      setFs fs p (.dir ⟨uid.getD d.uid, gid.getD d.gid, 493⟩) := by
  rw [chmodFs_setFs_dir, chownFs_setFs_dir]

theorem lookupFs_setFs (fs : Fs) (p q : List Component) (v : Node) :
    lookupFs (setFs fs p v) q = if q = p then some v else lookupFs fs q := by
  by_cases h : q = p
  · subst h; simp [lookupFs_setFs_self]
  · simp [h, lookupFs_setFs_ne fs p q v h]

theorem setFs_dir_entries (fs : Fs) (p q : List Component) (d : FileMeta) (n : Node)
    (h : lookupFs (setFs fs p (.dir d)) q = some n) :
    lookupFs fs q = some n ∨ ∃ d', n = .dir d' := by
  rw [lookupFs_setFs] at h
  by_cases hq : q = p
  · rw [if_pos hq] at h
    exact Or.inr ⟨d, (Option.some.inj h).symm⟩
  · rw [if_neg hq] at h
    exact Or.inl h

theorem setFs_isSome (fs : Fs) (p q : List Component) (v : Node)
    (h : (lookupFs fs q).isSome = true) :
    (lookupFs (setFs fs p v) q).isSome = true := by
  rw [lookupFs_setFs]
  by_cases hq : q = p
  · simp [hq]
  · simp [hq, h]

/-! ## One-step equations for the directory walk -/

theorem mkdirs_cons_exists (env : RunEnv) (uid gid : Option Nat) (fs : Fs)
    (current : List Component) (c : Component) (rest : List Component)
    (h : (lookupFs fs (current ++ [c])).isSome = true) :
    mkdirs env uid gid fs current (c :: rest) =
      mkdirs env uid gid fs (current ++ [c]) rest := by
  simp only [mkdirs, h, if_true]

theorem mkdirs_cons_createFail (env : RunEnv) (uid gid : Option Nat) (fs : Fs)
    (current : List Component) (c : Component) (rest : List Component)
    (hnone : lookupFs fs (current ++ [c]) = none)
    (hcf : env.createFails (current ++ [c]) = true) :
    mkdirs env uid gid fs current (c :: rest) = .error (.createDirFailed, fs) := by
  simp only [mkdirs, hnone, hcf, Option.isSome_none, Bool.false_eq_true, if_false, if_true]

theorem mkdirs_cons_chmodFail (env : RunEnv) (uid gid : Option Nat) (fs : Fs)
    (current : List Component) (c : Component) (rest : List Component)
    (hnone : lookupFs fs (current ++ [c]) = none)
    (hcf : env.createFails (current ++ [c]) = false)
    (hmf : env.chmodFails (current ++ [c]) = true) :
    mkdirs env uid gid fs current (c :: rest) =
      .error (.setPermissionsFailed,
        setFs fs (current ++ [c]) (.dir ⟨env.defUid, env.defGid, env.defDirMode⟩)) := by
  simp only [mkdirs, hnone, hcf, hmf, Option.isSome_none, Bool.false_eq_true, if_false, if_true]

theorem mkdirs_cons_chownFail (env : RunEnv) (uid gid : Option Nat) (fs : Fs)
    (current : List Component) (c : Component) (rest : List Component)
    (hnone : lookupFs fs (current ++ [c]) = none)
    (hcf : env.createFails (current ++ [c]) = false)
    (hmf : env.chmodFails (current ++ [c]) = false)
    (hsome : (uid.isSome || gid.isSome) = true)
    (hof : env.chownFails (current ++ [c]) = true) :
    mkdirs env uid gid fs current (c :: rest) =
      .error (.chownFailed,
        setFs fs (current ++ [c]) (.dir ⟨env.defUid, env.defGid, 493⟩)) := by
  simp only [mkdirs, hnone, hcf, hmf, hsome, hof, Option.isSome_none, Bool.false_eq_true,
    if_false, if_true]
  rw [chmodFs_setFs_dir]

theorem mkdirs_cons_create_chown (env : RunEnv) (uid gid : Option Nat) (fs : Fs)
    (current : List Component) (c : Component) (rest : List Component)
    (hnone : lookupFs fs (current ++ [c]) = none)
    (hcf : env.createFails (current ++ [c]) = false)
    (hmf : env.chmodFails (current ++ [c]) = false)
    (hsome : (uid.isSome || gid.isSome) = true)
    (hof : env.chownFails (current ++ [c]) = false) :
    mkdirs env uid gid fs current (c :: rest) =
      mkdirs env uid gid
        (setFs fs (current ++ [c])
          (.dir ⟨uid.getD env.defUid, gid.getD env.defGid, 493⟩))
        (current ++ [c]) rest := by
  simp only [mkdirs, hnone, hcf, hmf, hsome, hof, Option.isSome_none, Bool.false_eq_true,
    if_false, if_true]
  rw [mkdirs_step_net]

theorem mkdirs_cons_create_nochown (env : RunEnv) (uid gid : Option Nat) (fs : Fs)
    (current : List Component) (c : Component) (rest : List Component)
    (hnone : lookupFs fs (current ++ [c]) = none)
    (hcf : env.createFails (current ++ [c]) = false)
    (hmf : env.chmodFails (current ++ [c]) = false)
    (hsome : (uid.isSome || gid.isSome) = false) :
    mkdirs env uid gid fs current (c :: rest) =
      mkdirs env uid gid
        (setFs fs (current ++ [c]) (.dir ⟨env.defUid, env.defGid, 493⟩))
        (current ++ [c]) rest := by
  simp only [mkdirs, hnone, hcf, hmf, hsome, Option.isSome_none, Bool.false_eq_true,
    if_false, if_true]
  rw [chmodFs_setFs_dir]

/-! ## Frame and decomposition lemmas for the stages of `run` -/

theorem length_lt_ne {l1 l2 : List Component} (h : l1.length < l2.length) :
    l1 ≠ l2 := by
  intro heq
  rw [heq] at h
  exact lt_irrefl _ h

theorem parentPath_some (l d : List Component) (h : parentPath l = some d) :
    d = l.dropLast ∧ d.length < l.length := by
  unfold parentPath at h
  by_cases hc : l = [] ∨ l = [.rootDir]
  · rw [if_pos hc] at h; exact absurd h (by simp)
  · rw [if_neg hc] at h
    have hd := (Option.some.inj h).symm
    subst hd
    have hne : l ≠ [] := fun hl => hc (Or.inl hl)
    refine ⟨rfl, ?_⟩
    rw [List.length_dropLast]
    have hpos : 0 < l.length := List.length_pos.mpr hne
    omega

/-- The walk only ever touches keys no longer than its component list: any
strictly longer path is left alone, whether the walk succeeds or aborts. -/
theorem mkdirs_frame_length (env : RunEnv) (uid gid : Option Nat)
    (comps : List Component) :
    ∀ (fs : Fs) (current q : List Component),
      current.length + comps.length < q.length →
      lookupFs (exceptFs (mkdirs env uid gid fs current comps)) q = lookupFs fs q := by
  induction comps with
  | nil => intro fs current q h; rfl
  | cons c rest ih =>
    intro fs current q h
    have hlen : (current ++ [c]).length + rest.length < q.length := by
      rw [List.length_append, List.length_singleton]
      simp only [List.length_cons] at h
      omega
    have hcur_ne : q ≠ current ++ [c] := by
      intro heq
      rw [heq, List.length_append, List.length_singleton] at h
      simp only [List.length_cons] at h
      omega
    by_cases hex : (lookupFs fs (current ++ [c])).isSome = true
    · rw [mkdirs_cons_exists env uid gid fs current c rest hex]
      exact ih fs (current ++ [c]) q hlen
    · have hnone : lookupFs fs (current ++ [c]) = none := by
        cases hl : lookupFs fs (current ++ [c]) with
        | none => rfl
        | some v => rw [hl] at hex; simp at hex
      by_cases hcf : env.createFails (current ++ [c]) = true
      · rw [mkdirs_cons_createFail env uid gid fs current c rest hnone hcf]
        rfl
      · have hcf' := bool_eq_false hcf
        by_cases hmf : env.chmodFails (current ++ [c]) = true
        · rw [mkdirs_cons_chmodFail env uid gid fs current c rest hnone hcf' hmf]
          exact lookupFs_setFs_ne _ _ _ _ hcur_ne
        · have hmf' := bool_eq_false hmf
          by_cases hsome : (uid.isSome || gid.isSome) = true
          · by_cases hof : env.chownFails (current ++ [c]) = true
            · rw [mkdirs_cons_chownFail env uid gid fs current c rest hnone hcf' hmf'
                hsome hof]
              exact lookupFs_setFs_ne _ _ _ _ hcur_ne
            · have hof' := bool_eq_false hof
              rw [mkdirs_cons_create_chown env uid gid fs current c rest hnone hcf' hmf'
                hsome hof']
              rw [ih _ (current ++ [c]) q hlen]
              exact lookupFs_setFs_ne _ _ _ _ hcur_ne
          · have hsome' := bool_eq_false hsome
            rw [mkdirs_cons_create_nochown env uid gid fs current c rest hnone hcf'
              hmf' hsome']
            rw [ih _ (current ++ [c]) q hlen]
            exact lookupFs_setFs_ne _ _ _ _ hcur_ne

/-- The directory-materialization stage leaves every path at least as long as
the target untouched, in all outcomes. -/
theorem ensureDirs_frame (env : RunEnv) (uid gid : Option Nat) (fs : Fs)
    (mk : Bool) (tc : List Component) :
    ∀ q, tc.length ≤ q.length →
      lookupFs (resultFs (ensureDirs env uid gid fs mk tc)) q = lookupFs fs q := by
  intro q hq
  cases mk with
  | false => rfl
  | true =>
    cases hp : parentPath tc with
    | none => simp [ensureDirs, hp, resultFs]
    | some dir =>
      have hdl := (parentPath_some tc dir hp).2
      by_cases hex : (lookupFs fs dir).isSome = true
      · simp [ensureDirs, hp, hex, resultFs]
      · simp only [ensureDirs, hp, if_true]
        rw [if_neg hex]
        have hframe := mkdirs_frame_length env uid gid dir fs [] q
          (by simp only [List.length_nil]; omega)
        cases hm : mkdirs env uid gid fs [] dir with
        | error p =>
          obtain ⟨e, fsE⟩ := p
          rw [hm] at hframe
          simpa [exceptFs, resultFs] using hframe
        | ok fs' =>
          rw [hm] at hframe
          simpa [exceptFs, resultFs] using hframe

/-- When directory creation is not requested, or the parent already exists,
the directory stage either does nothing or panics (on a root target), but
never mutates the filesystem. -/
theorem ensureDirs_noop (env : RunEnv) (uid gid : Option Nat) (fs : Fs)
    (mk : Bool) (tc : List Component)
    (h : mk = false ∨ (lookupFs fs tc.dropLast).isSome = true) :
    ensureDirs env uid gid fs mk tc = .ok fs ∨
    ensureDirs env uid gid fs mk tc = .panicked fs := by
  cases mk with
  | false => exact Or.inl rfl
  | true =>
    cases hp : parentPath tc with
    | none => exact Or.inr (by simp [ensureDirs, hp])
    | some dir =>
      have hdrop := (parentPath_some tc dir hp).1
      have hex : (lookupFs fs dir).isSome = true := by
        rcases h with h | h
        · exact absurd h (by simp)
        · rw [hdrop]; exact h
      exact Or.inl (by simp [ensureDirs, hp, hex])

theorem writeModel_ok (env : RunEnv) (fs : Fs) (dest : List Component)
    (input : List Nat) (perm : MaybePermissions) (fs1 : Fs)
    (h : writeFileAtomicModel env fs dest input perm = some fs1) :
    ∃ par, parentPath dest = some par ∧ isDirAt fs par = true ∧
      ((∃ c0 m0, lookupFs fs dest = some (.file c0 m0) ∧
          fs1 = setFs fs dest (.file input m0)) ∨
       (lookupFs fs dest = none ∧
          fs1 = setFs fs dest (.file input
            ⟨perm.uid.getD env.defUid, perm.gid.getD env.defGid,
             perm.mode.getD env.defFileMode⟩))) := by
  unfold writeFileAtomicModel at h
  split at h
  · exact absurd h (by simp)
  · rename_i par hp
    by_cases hd : isDirAt fs par = true
    · rw [if_pos hd] at h
      split at h
      · exact absurd h (by simp)
      · rename_i c0 m0 hl
        exact ⟨par, hp, hd, Or.inl ⟨c0, m0, hl, (Option.some.inj h).symm⟩⟩
      · rename_i hl
        exact ⟨par, hp, hd, Or.inr ⟨hl, (Option.some.inj h).symm⟩⟩
    · rw [if_neg hd] at h
      exact absurd h (by simp)

theorem writeModel_frame (env : RunEnv) (fs : Fs) (dest : List Component)
    (input : List Nat) (perm : MaybePermissions) (fs1 : Fs)
    (h : writeFileAtomicModel env fs dest input perm = some fs1) :
    ∀ q, q ≠ dest → lookupFs fs1 q = lookupFs fs q := by
  intro q hq
  rcases writeModel_ok env fs dest input perm fs1 h with ⟨par, _, _, hcase⟩
  rcases hcase with ⟨c0, m0, _, rfl⟩ | ⟨_, rfl⟩ <;>
    exact lookupFs_setFs_ne _ _ _ _ hq

theorem writeModel_idempotent (env : RunEnv) (fs : Fs) (dest : List Component)
    (input : List Nat) (perm : MaybePermissions) (fs1 : Fs)
    (h : writeFileAtomicModel env fs dest input perm = some fs1) :
    writeFileAtomicModel env fs1 dest input perm = some fs1 := by
  rcases writeModel_ok env fs dest input perm fs1 h with ⟨par, hp, hd, hcase⟩
  have hpar_ne : par ≠ dest := length_lt_ne (parentPath_some dest par hp).2
  have hm : ∃ m, fs1 = setFs fs dest (.file input m) := by
    rcases hcase with ⟨c0, m0, _, rfl⟩ | ⟨_, rfl⟩
    · exact ⟨m0, rfl⟩
    · exact ⟨_, rfl⟩
  rcases hm with ⟨m, rfl⟩
  have hdir1 : isDirAt (setFs fs dest (.file input m)) par = true := by
    unfold isDirAt at hd ⊢
    rw [lookupFs_setFs_ne _ _ _ _ hpar_ne]
    exact hd
  have hlook : lookupFs (setFs fs dest (.file input m)) dest = some (.file input m) :=
    lookupFs_setFs_self _ _ _
  unfold writeFileAtomicModel
  rw [hp]
  simp only [hdir1, if_true, hlook]
  rw [setFs_setFs]

theorem validateDest_ok_parse (p target : String)
    (h : validateDest p = .ok target) :
    parseComps target.data = parseComps p.data ∧ isAbsolute p = true := by
  unfold validateDest at h
  cases habs : isAbsolute p with
  | false => rw [habs] at h; simp at h
  | true =>
    rw [habs] at h
    simp only [Bool.true_eq_false, if_false] at h
    by_cases hc : parseComps (clean p).data ≠ parseComps p.data
    · rw [if_pos hc] at h
      simp at h
    · rw [if_neg hc] at h
      have ht : clean p = target := Except.ok.inj h
      rw [← ht]
      exact ⟨not_ne_iff.mp hc, rfl⟩

theorem runWithUid_cases (env : RunEnv) (args : Args) (target : String)
    (input : List Nat) (mode uid : Option Nat) :
    (∀ fs, runWithTarget.runWithUid env fs args target input mode uid =
        .error .unknownGroup fs)
  ∨ (∀ fs, runWithTarget.runWithUid env fs args target input mode uid =
        runWithTarget.runResolved env fs args target input mode uid
          (args.group.bind (alookup env.groups))) := by
  cases hg : args.group with
  | none =>
    right
    intro fs
    simp only [runWithTarget.runWithUid, hg, Option.none_bind]
  | some g =>
    cases hl : alookup env.groups g with
    | none =>
      left
      intro fs
      simp only [runWithTarget.runWithUid, hg, hl]
    | some gv =>
      right
      intro fs
      simp only [runWithTarget.runWithUid, hg, hl, Option.some_bind]

theorem runWithMode_cases (env : RunEnv) (args : Args) (target : String)
    (input : List Nat) (mode : Option Nat) :
    (∃ e, (e = RunError.unknownUser ∨ e = RunError.unknownGroup) ∧
      ∀ fs, runWithTarget.runWithMode env fs args target input mode = .error e fs)
  ∨ (∀ fs, runWithTarget.runWithMode env fs args target input mode =
        runWithTarget.runResolved env fs args target input mode
          (args.user.bind (alookup env.users))
          (args.group.bind (alookup env.groups))) := by
  cases hu : args.user with
  | none =>
    rcases runWithUid_cases env args target input mode none with hgrp | hgrp
    · left
      refine ⟨.unknownGroup, Or.inr rfl, fun fs => ?_⟩
      simp only [runWithTarget.runWithMode, hu]
      exact hgrp fs
    · right
      intro fs
      simp only [runWithTarget.runWithMode, hu, Option.none_bind]
      exact hgrp fs
  | some u =>
    cases hl : alookup env.users u with
    | none =>
      left
      refine ⟨.unknownUser, Or.inl rfl, fun fs => ?_⟩
      simp only [runWithTarget.runWithMode, hu, hl]
    | some uv =>
      rcases runWithUid_cases env args target input mode (some uv) with hgrp | hgrp
      · left
        refine ⟨.unknownGroup, Or.inr rfl, fun fs => ?_⟩
        simp only [runWithTarget.runWithMode, hu, hl]
        exact hgrp fs
      · right
        intro fs
        simp only [runWithTarget.runWithMode, hu, hl, Option.some_bind]
        exact hgrp fs

/-- `run` either fails before touching the filesystem (with the same error for
every starting state), or reaches the resolved stage with the validated target
and the mode/uid/gid obtained from the flags — uniformly in the starting
state, since validation and name resolution never consult the filesystem. -/
theorem run_eq_cases (env : RunEnv) (args : Args) (input : List Nat) :
    (∃ e, ∀ fs, run env fs args input = .error e fs)
  ∨ (∃ target,
      validateDest args.destination_path = .ok target ∧
      ∀ fs, run env fs args input =
        runWithTarget.runResolved env fs args target input
          (args.mode.bind parseOctal)
          (args.user.bind (alookup env.users))
          (args.group.bind (alookup env.groups))) := by
  cases hv : validateDest args.destination_path with
  | error e =>
    left
    refine ⟨e, fun fs => ?_⟩
    unfold run
    rw [hv]
  | ok target =>
    have hrun : ∀ fs, run env fs args input = runWithTarget env fs args target input := by
      intro fs
      unfold run
      rw [hv]
    cases hm : args.mode with
    | some m =>
      cases hpm : parseOctal m with
      | none =>
        left
        refine ⟨.invalidMode, fun fs => ?_⟩
        rw [hrun fs]
        simp only [runWithTarget, hm, hpm]
      | some mv =>
        rcases runWithMode_cases env args target input (some mv) with ⟨e, _, hmode⟩ | hmode
        · left
          refine ⟨e, fun fs => ?_⟩
          rw [hrun fs]
          simp only [runWithTarget, hm, hpm]
          exact hmode fs
        · right
          refine ⟨target, rfl, fun fs => ?_⟩
          rw [hrun fs]
          simp only [runWithTarget, hm, hpm, Option.some_bind]
          exact hmode fs
    | none =>
      rcases runWithMode_cases env args target input none with ⟨e, _, hmode⟩ | hmode
      · left
        refine ⟨e, fun fs => ?_⟩
        rw [hrun fs]
        simp only [runWithTarget, hm]
        exact hmode fs
      · right
        refine ⟨target, rfl, fun fs => ?_⟩
        rw [hrun fs]
        simp only [runWithTarget, hm, Option.none_bind]
        exact hmode fs

theorem isDirAt_isSome (fs : Fs) (p : List Component) (h : isDirAt fs p = true) :
    (lookupFs fs p).isSome = true := by
  unfold isDirAt at h
  split at h
  · rename_i m heq
    rw [heq]
    rfl
  · exact absurd h (by simp)

/-- `runResolved` is the directory stage followed by the write stage:
successful directory stage. -/
theorem runResolved_ensure_ok (env : RunEnv) (fs : Fs) (args : Args)
    (target : String) (input : List Nat) (mode uid gid : Option Nat) (fsMid : Fs)
    (he : ensureDirs env uid gid fs args.makedirs (parseComps target.data) = .ok fsMid) :
    runWithTarget.runResolved env fs args target input mode uid gid =
      match writeFileAtomicModel env fsMid (parseComps target.data) input
          ⟨uid, gid, mode⟩ with
      | some fs'' => .ok fs''
      | none => .error .writeFailed fsMid := by
  simp only [runWithTarget.runResolved, he]

/-- Directory-stage errors propagate unchanged. -/
theorem runResolved_ensure_error (env : RunEnv) (fs : Fs) (args : Args)
    (target : String) (input : List Nat) (mode uid gid : Option Nat)
    (e : RunError) (fsE : Fs)
    (he : ensureDirs env uid gid fs args.makedirs (parseComps target.data) =
      .error e fsE) :
    runWithTarget.runResolved env fs args target input mode uid gid = .error e fsE := by
  simp only [runWithTarget.runResolved, he]

/-- A directory-stage panic propagates unchanged. -/
theorem runResolved_ensure_panicked (env : RunEnv) (fs : Fs) (args : Args)
    (target : String) (input : List Nat) (mode uid gid : Option Nat) (fsP : Fs)
    (he : ensureDirs env uid gid fs args.makedirs (parseComps target.data) =
      .panicked fsP) :
    runWithTarget.runResolved env fs args target input mode uid gid = .panicked fsP := by
  simp only [runWithTarget.runResolved, he]

theorem ensureDirs_ok_of_parent (env : RunEnv) (uid gid : Option Nat) (fs : Fs)
    (mk : Bool) (tc par : List Component)
    (hp : parentPath tc = some par)
    (hex : (lookupFs fs par).isSome = true) :
    ensureDirs env uid gid fs mk tc = .ok fs := by
  cases mk with
  | false => rfl
  | true => simp [ensureDirs, hp, hex]

/-- A second, identical invocation of the resolved stage over the state a first
successful invocation produced succeeds and changes nothing. -/
theorem runResolved_idempotent (env : RunEnv) (args : Args) (target : String)
    (input : List Nat) (mode uid gid : Option Nat) (fs fs1 : Fs)
    (h : runWithTarget.runResolved env fs args target input mode uid gid = .ok fs1) :
    runWithTarget.runResolved env fs1 args target input mode uid gid = .ok fs1 := by
  cases he : ensureDirs env uid gid fs args.makedirs (parseComps target.data) with
  | panicked fsP =>
    rw [runResolved_ensure_panicked env fs args target input mode uid gid _ he] at h
    exact absurd h (by simp)
  | error e fsE =>
    rw [runResolved_ensure_error env fs args target input mode uid gid _ _ he] at h
    exact absurd h (by simp)
  | ok fsMid =>
    rw [runResolved_ensure_ok env fs args target input mode uid gid _ he] at h
    cases hw : writeFileAtomicModel env fsMid (parseComps target.data) input
        ⟨uid, gid, mode⟩ with
    | none =>
      rw [hw] at h
      exact absurd h (by simp)
    | some fs'' =>
      rw [hw] at h
      have hfs1 : fs'' = fs1 := by
        have hh : RunResult.ok fs'' = RunResult.ok fs1 := h
        exact RunResult.ok.inj hh
      subst hfs1
      rcases writeModel_ok env fsMid (parseComps target.data) input _ fs'' hw with
        ⟨par, hp, hd, hcase⟩
      have hpar_ne : par ≠ parseComps target.data :=
        length_lt_ne (parentPath_some _ par hp).2
      have hm : ∃ m, fs'' = setFs fsMid (parseComps target.data) (.file input m) := by
        rcases hcase with ⟨c0, m0, _, hfs⟩ | ⟨_, hfs⟩
        · exact ⟨m0, hfs⟩
        · exact ⟨_, hfs⟩
      rcases hm with ⟨m, hfs2⟩
      have hex1 : (lookupFs fs'' par).isSome = true := by
        rw [hfs2, lookupFs_setFs_ne _ _ _ _ hpar_ne]
        exact isDirAt_isSome fsMid par hd
      rw [runResolved_ensure_ok env fs'' args target input mode uid gid _
        (ensureDirs_ok_of_parent env uid gid fs'' args.makedirs _ par hp hex1)]
      have hw2 := writeModel_idempotent env fsMid (parseComps target.data) input
        ⟨uid, gid, mode⟩ fs'' hw
      rw [hw2]

/-- When the directory stage is skipped, the only path the run can change is
the target itself. -/
theorem runResolved_skip_frame (env : RunEnv) (args : Args) (target : String)
    (input : List Nat) (mode uid gid : Option Nat) (fs : Fs)
    (h : args.makedirs = false ∨
      (lookupFs fs ((parseComps target.data).dropLast)).isSome = true) :
    ∀ q, q ≠ parseComps target.data →
      lookupFs (resultFs (runWithTarget.runResolved env fs args target input mode uid gid)) q
        = lookupFs fs q := by
  intro q hq
  rcases ensureDirs_noop env uid gid fs args.makedirs (parseComps target.data) h with
    he | he
  · rw [runResolved_ensure_ok env fs args target input mode uid gid _ he]
    cases hw : writeFileAtomicModel env fs (parseComps target.data) input
        ⟨uid, gid, mode⟩ with
    | none => rfl
    | some fs'' =>
      exact writeModel_frame env fs _ input _ fs'' hw q hq
  · rw [runResolved_ensure_panicked env fs args target input mode uid gid _ he]
    rfl

/-- Through the resolved stage, a pre-existing file at the target keeps its
metadata in every outcome: on success its content becomes the input, in every
other outcome it is untouched. -/
theorem runResolved_dest_file (env : RunEnv) (args : Args) (target : String)
    (input : List Nat) (mode uid gid : Option Nat) (fs : Fs)
    (c0 : List Nat) (m0 : FileMeta)
    (hdest : lookupFs fs (parseComps target.data) = some (.file c0 m0)) :
    (∀ fsOut, runWithTarget.runResolved env fs args target input mode uid gid = .ok fsOut →
      lookupFs fsOut (parseComps target.data) = some (.file input m0)) ∧
    (lookupFs (resultFs (runWithTarget.runResolved env fs args target input mode uid gid))
        (parseComps target.data) = some (.file c0 m0) ∨
     lookupFs (resultFs (runWithTarget.runResolved env fs args target input mode uid gid))
        (parseComps target.data) = some (.file input m0)) := by
  have hmid : lookupFs (resultFs (ensureDirs env uid gid fs args.makedirs
      (parseComps target.data))) (parseComps target.data) = some (.file c0 m0) := by
    rw [ensureDirs_frame env uid gid fs args.makedirs _ _ le_rfl]
    exact hdest
  cases he : ensureDirs env uid gid fs args.makedirs (parseComps target.data) with
  | panicked fsP =>
    rw [he] at hmid
    rw [runResolved_ensure_panicked env fs args target input mode uid gid _ he]
    exact ⟨fun fsOut hout => absurd hout (by simp), Or.inl hmid⟩
  | error e fsE =>
    rw [he] at hmid
    rw [runResolved_ensure_error env fs args target input mode uid gid _ _ he]
    exact ⟨fun fsOut hout => absurd hout (by simp), Or.inl hmid⟩
  | ok fsMid =>
    rw [he] at hmid
    simp only [resultFs] at hmid
    rw [runResolved_ensure_ok env fs args target input mode uid gid _ he]
    cases hw : writeFileAtomicModel env fsMid (parseComps target.data) input
        ⟨uid, gid, mode⟩ with
    | none =>
      exact ⟨fun fsOut hout => absurd hout (by simp), Or.inl hmid⟩
    | some fs1 =>
      rcases writeModel_ok env fsMid (parseComps target.data) input _ fs1 hw with
        ⟨par, hp, hd, hcase⟩
      rcases hcase with ⟨c0', m0', hl, hfs⟩ | ⟨hl, _⟩
      · rw [hmid] at hl
        cases Option.some.inj hl
        constructor
        · intro fsOut hout
          have hh : RunResult.ok fs1 = RunResult.ok fsOut := hout
          have hfo : fs1 = fsOut := RunResult.ok.inj hh
          rw [← hfo, hfs]
          exact lookupFs_setFs_self _ _ _
        · right
          rw [hfs]
          exact lookupFs_setFs_self _ _ _
      · rw [hmid] at hl
        exact absurd hl (by simp)

/-- Through the resolved stage, a successful run over a missing target creates
it with the pending permissions (defaults where absent). -/
theorem runResolved_dest_new (env : RunEnv) (args : Args) (target : String)
    (input : List Nat) (mode uid gid : Option Nat) (fs fsOut : Fs)
    (hdest : lookupFs fs (parseComps target.data) = none)
    (hok : runWithTarget.runResolved env fs args target input mode uid gid = .ok fsOut) :
    lookupFs fsOut (parseComps target.data) =
      some (.file input
        ⟨uid.getD env.defUid, gid.getD env.defGid, mode.getD env.defFileMode⟩) := by
  have hmid : lookupFs (resultFs (ensureDirs env uid gid fs args.makedirs
      (parseComps target.data))) (parseComps target.data) = none := by
    rw [ensureDirs_frame env uid gid fs args.makedirs _ _ le_rfl]
    exact hdest
  cases he : ensureDirs env uid gid fs args.makedirs (parseComps target.data) with
  | panicked fsP =>
    rw [runResolved_ensure_panicked env fs args target input mode uid gid _ he] at hok
    exact absurd hok (by simp)
  | error e fsE =>
    rw [runResolved_ensure_error env fs args target input mode uid gid _ _ he] at hok
    exact absurd hok (by simp)
  | ok fsMid =>
    rw [he] at hmid
    simp only [resultFs] at hmid
    rw [runResolved_ensure_ok env fs args target input mode uid gid _ he] at hok
    cases hw : writeFileAtomicModel env fsMid (parseComps target.data) input
        ⟨uid, gid, mode⟩ with
    | none =>
      rw [hw] at hok
      exact absurd hok (by simp)
    | some fs1 =>
      rw [hw] at hok
      have hfo : fs1 = fsOut := by
        have hh : RunResult.ok fs1 = RunResult.ok fsOut := hok
        exact RunResult.ok.inj hh
      rcases writeModel_ok env fsMid (parseComps target.data) input _ fs1 hw with
        ⟨par, hp, hd, hcase⟩
      rcases hcase with ⟨c0', m0', hl, _⟩ | ⟨hl, hfs⟩
      · rw [hmid] at hl
        exact absurd hl (by simp)
      · rw [← hfo, hfs]
        exact lookupFs_setFs_self _ _ _

/-- When a user or group name fails to resolve, the mode-resolved stage fails
with the corresponding error, for every starting state. -/
theorem runWithMode_config_error (env : RunEnv) (args : Args) (target : String)
    (input : List Nat) (mode : Option Nat)
    (h : (∃ u, args.user = some u ∧ alookup env.users u = none) ∨
         (∃ g, args.group = some g ∧ alookup env.groups g = none)) :
    ∃ e, (e = RunError.unknownUser ∨ e = RunError.unknownGroup) ∧
      ∀ fs, runWithTarget.runWithMode env fs args target input mode = .error e fs := by
  cases hu : args.user with
  | some u =>
    cases hl : alookup env.users u with
    | none =>
      exact ⟨.unknownUser, Or.inl rfl, fun fs => by
        simp only [runWithTarget.runWithMode, hu, hl]⟩
    | some uv =>
      have h3 : ∃ g, args.group = some g ∧ alookup env.groups g = none := by
        rcases h with ⟨u', hu', hl'⟩ | h
        · rw [hu] at hu'
          have huu : u = u' := Option.some.inj hu'
          rw [← huu] at hl'
          rw [hl'] at hl
          exact absurd hl (by simp)
        · exact h
      rcases h3 with ⟨g, hg, hlg⟩
      exact ⟨.unknownGroup, Or.inr rfl, fun fs => by
        simp only [runWithTarget.runWithMode, hu, hl, runWithTarget.runWithUid, hg, hlg]⟩
  | none =>
    have h3 : ∃ g, args.group = some g ∧ alookup env.groups g = none := by
      rcases h with ⟨u', hu', _⟩ | h
      · rw [hu] at hu'
        exact absurd hu' (by simp)
      · exact h
    rcases h3 with ⟨g, hg, hlg⟩
    exact ⟨.unknownGroup, Or.inr rfl, fun fs => by
      simp only [runWithTarget.runWithMode, hu, runWithTarget.runWithUid, hg, hlg]⟩

/-! ## The claims -/

/-- Claim C1, amended: `run` fails with an invalid-destination error
(`notAbsolute`/`notCanonical`) leaving the filesystem untouched exactly when
the destination is not absolute or its component sequence contains a `..`
component. Destination strings containing `.` components or redundant/doubled
separators but no `..` are NOT rejected: `Path` equality in Rust compares
component sequences, which already normalize `.` and repeated separators away,
so such paths compare equal to their cleaned form and are accepted. -/
theorem c1_invalid_destination_rejected (p : String) :
    ((isAbsolute p = false ∨ Component.parentDir ∈ parseComps p.data) →
      ∀ (env : RunEnv) (fs : Fs) (args : Args) (input : List Nat),
        args.destination_path = p →
        run env fs args input =
          .error (if isAbsolute p = true then RunError.notCanonical
                  else RunError.notAbsolute) fs)
  ∧ ((isAbsolute p = true ∧ Component.parentDir ∉ parseComps p.data) →
      validateDest p = .ok (clean p)) := by
  constructor
  · rintro h env fs args input rfl
    cases habs : isAbsolute args.destination_path with
    | false =>
      unfold run
      rw [validateDest_err_of_nonabs _ habs]
      simp
    | true =>
      have hp : Component.parentDir ∈ parseComps args.destination_path.data := by
        rcases h with h | h
        · rw [habs] at h; exact absurd h (by simp)
        · exact h
      unfold run
      rw [validateDest_err_of_parent _ habs hp]
      simp
  · rintro ⟨habs, hnp⟩
    exact validateDest_ok_of_noparent p habs hnp

/-- Claim C1, counterexample to the claim as stated: `"/a/./b"` contains a `.`
component and `"/a//b"` contains a doubled separator (both have a cleaned form
that differs from the input as a string), yet validation accepts both, and an
invocation with destination `"/a/./b"` runs to success, mutating the
filesystem — it is not rejected with an invalid-destination error. -/
theorem c1_counterexample :
    validateDest "/a/./b" = .ok "/a/b" ∧
    validateDest "/a//b" = .ok "/a/b" ∧
    run wEnv wFs ⟨"/a/./b", none, none, none, false⟩ [1, 2] =
      .ok (setFs wFs wAB (.file [1, 2] ⟨0, 0, 384⟩)) :=
  ⟨rfl, rfl, by decide⟩

/-- Claim C1, witness for the amended theorem: `"/a/../b"` (a `..` traversal)
is rejected as not canonical with the filesystem untouched, and `"a/b"`
(relative) is rejected as not absolute. -/
theorem c1_witness :
    run wEnv wFs ⟨"/a/../b", none, none, none, false⟩ [] =
      .error RunError.notCanonical wFs ∧
    run wEnv wFs ⟨"a/b", none, none, none, false⟩ [] =
      .error RunError.notAbsolute wFs :=
  ⟨(c1_invalid_destination_rejected "/a/../b").1 (Or.inr (by decide)) wEnv wFs _ [] rfl,
   (c1_invalid_destination_rejected "a/b").1 (Or.inl (by decide)) wEnv wFs _ [] rfl⟩

/-- Claim C2: for every absolute destination path already in canonical form
(its lexically-cleaned form equals the input), validation succeeds returning
the path unchanged, and `run` proceeds with exactly that target path for all
subsequent operations. -/
theorem c2_canonical_accepted (p : String) (habs : isAbsolute p = true)
    (hc : clean p = p) :
    validateDest p = .ok p ∧
    ∀ (env : RunEnv) (fs : Fs) (args : Args) (input : List Nat),
      args.destination_path = p →
      run env fs args input = runWithTarget env fs args p input := by
  have hok : validateDest p = .ok p := by
    unfold validateDest
    rw [habs, hc]
    simp
  refine ⟨hok, ?_⟩
  rintro env fs args input rfl
  unfold run
  rw [hok]

/-- Claim C2, witness: the canonical path `"/a/b"` is accepted unchanged. -/
theorem c2_witness :
    validateDest "/a/b" = .ok "/a/b" ∧
    run wEnv wFs ⟨"/a/b", none, none, none, false⟩ [7] =
      runWithTarget wEnv wFs ⟨"/a/b", none, none, none, false⟩ "/a/b" [7] :=
  ⟨(c2_canonical_accepted "/a/b" (by decide) (by decide)).1,
   (c2_canonical_accepted "/a/b" (by decide) (by decide)).2 wEnv wFs _ [7] rfl⟩

/-- Claim C4: one step of the directory walk, for the accumulated path
`current ++ [c]`: if it already exists it is skipped with the filesystem
unchanged; if it does not exist (and none of the syscalls is made to fail) it
is created and ends up as a directory entry whose mode is `0o755` (`493`)
unconditionally and whose owner/group are the requested ids where present,
the process defaults otherwise — i.e. creation, then `chmod 0755`, then
`chown` if at least one id is present. -/
theorem c4_dir_walk_step (env : RunEnv) (uid gid : Option Nat) (fs : Fs)
    (current : List Component) (c : Component) (rest : List Component) :
    ((lookupFs fs (current ++ [c])).isSome = true →
      mkdirs env uid gid fs current (c :: rest) =
        mkdirs env uid gid fs (current ++ [c]) rest)
  ∧ (lookupFs fs (current ++ [c]) = none →
     env.createFails (current ++ [c]) = false →
     env.chmodFails (current ++ [c]) = false →
     env.chownFails (current ++ [c]) = false →
      mkdirs env uid gid fs current (c :: rest) =
        mkdirs env uid gid
          (setFs fs (current ++ [c])
            (.dir ⟨uid.getD env.defUid, gid.getD env.defGid, 493⟩))
          (current ++ [c]) rest) := by
  refine ⟨mkdirs_cons_exists env uid gid fs current c rest, ?_⟩
  intro hnone hcf hmf hof
  by_cases hsome : (uid.isSome || gid.isSome) = true
  · exact mkdirs_cons_create_chown env uid gid fs current c rest hnone hcf hmf hsome hof
  · have hsome' : (uid.isSome || gid.isSome) = false := bool_eq_false hsome
    have hu : uid = none := by
      cases uid with
      | none => rfl
      | some u => simp at hsome'
    have hg : gid = none := by
      cases gid with
      | none => rfl
      | some g => rw [hu] at hsome'; simp at hsome'
    subst hu; subst hg
    exact mkdirs_cons_create_nochown env none none fs current c rest hnone hcf hmf hsome'

/-- Claim C4, witness: over `wFs` (where `/a` exists but `/a/b` does not), the
step for `/a` is a pure skip, and the step for `/a/b` creates it as a directory
owned by uid 1000 (the requested user), gid 0 (the process default), with mode
`0o755`. -/
theorem c4_witness :
    mkdirs wEnv (some 1000) none wFs [.rootDir] [.normal ['a'], .normal ['b']] =
      mkdirs wEnv (some 1000) none wFs ([.rootDir] ++ [.normal ['a']]) [.normal ['b']] ∧
    mkdirs wEnv (some 1000) none wFs wA [.normal ['b']] =
      mkdirs wEnv (some 1000) none
        (setFs wFs (wA ++ [.normal ['b']]) (.dir ⟨1000, 0, 493⟩))
        (wA ++ [.normal ['b']]) [] :=
  ⟨(c4_dir_walk_step wEnv (some 1000) none wFs [.rootDir] (.normal ['a'])
      [.normal ['b']]).1 (by decide),
   (c4_dir_walk_step wEnv (some 1000) none wFs wA (.normal ['b']) []).2
      (by decide) rfl rfl rfl⟩

/-- Claim C8: if `create_dir`, `set_permissions`, or `chown` fails at some step
of the directory walk, the walk aborts at that first error and the error
propagates — appending further components to the remaining work list does not
change the outcome; every entry present before the walk is still present in
the state at the error, and every entry of that state is either an original
entry or a (newly created) directory: directories created before the failure
remain, with no rollback. -/
theorem c8_walk_aborts_on_first_error (env : RunEnv) (uid gid : Option Nat)
    (comps : List Component) :
    ∀ (fs : Fs) (current : List Component) (e : RunError) (fsE : Fs),
      mkdirs env uid gid fs current comps = .error (e, fsE) →
      (∀ extra, mkdirs env uid gid fs current (comps ++ extra) = .error (e, fsE)) ∧
      (∀ q, (lookupFs fs q).isSome = true → (lookupFs fsE q).isSome = true) ∧
      (∀ q n, lookupFs fsE q = some n → lookupFs fs q = some n ∨ ∃ d, n = .dir d) := by
  induction comps with
  | nil =>
    intro fs current e fsE h
    exact absurd h (by simp [mkdirs])
  | cons c rest ih =>
    intro fs current e fsE h
    by_cases hex : (lookupFs fs (current ++ [c])).isSome = true
    · rw [mkdirs_cons_exists env uid gid fs current c rest hex] at h
      rcases ih fs (current ++ [c]) e fsE h with ⟨h1, h2, h3⟩
      refine ⟨?_, h2, h3⟩
      intro extra
      rw [List.cons_append, mkdirs_cons_exists env uid gid fs current c _ hex]
      exact h1 extra
    · have hnone : lookupFs fs (current ++ [c]) = none := by
        cases hl : lookupFs fs (current ++ [c]) with
        | none => rfl
        | some v => rw [hl] at hex; simp at hex
      by_cases hcf : env.createFails (current ++ [c]) = true
      · rw [mkdirs_cons_createFail env uid gid fs current c rest hnone hcf] at h
        injection h with hp
        rw [Prod.mk.injEq] at hp
        obtain ⟨he, hf⟩ := hp
        subst he; subst hf
        refine ⟨?_, fun q hq => hq, fun q n hq => Or.inl hq⟩
        intro extra
        rw [List.cons_append]
        exact mkdirs_cons_createFail env uid gid fs current c _ hnone hcf
      · have hcf' := bool_eq_false hcf
        by_cases hmf : env.chmodFails (current ++ [c]) = true
        · rw [mkdirs_cons_chmodFail env uid gid fs current c rest hnone hcf' hmf] at h
          injection h with hp
          rw [Prod.mk.injEq] at hp
          obtain ⟨he, hf⟩ := hp
          subst he; subst hf
          refine ⟨?_, fun q hq => setFs_isSome _ _ _ _ hq,
            fun q n hq => setFs_dir_entries _ _ _ _ _ hq⟩
          intro extra
          rw [List.cons_append]
          exact mkdirs_cons_chmodFail env uid gid fs current c _ hnone hcf' hmf
        · have hmf' := bool_eq_false hmf
          by_cases hsome : (uid.isSome || gid.isSome) = true
          · by_cases hof : env.chownFails (current ++ [c]) = true
            · rw [mkdirs_cons_chownFail env uid gid fs current c rest hnone hcf' hmf'
                hsome hof] at h
              injection h with hp
              rw [Prod.mk.injEq] at hp
              obtain ⟨he, hf⟩ := hp
              subst he; subst hf
              refine ⟨?_, fun q hq => setFs_isSome _ _ _ _ hq,
                fun q n hq => setFs_dir_entries _ _ _ _ _ hq⟩
              intro extra
              rw [List.cons_append]
              exact mkdirs_cons_chownFail env uid gid fs current c _ hnone hcf' hmf' hsome hof
            · have hof' := bool_eq_false hof
              rw [mkdirs_cons_create_chown env uid gid fs current c rest hnone hcf' hmf'
                hsome hof'] at h
              rcases ih _ (current ++ [c]) e fsE h with ⟨h1, h2, h3⟩
              refine ⟨?_, ?_, ?_⟩
              · intro extra
                rw [List.cons_append, mkdirs_cons_create_chown env uid gid fs current c _
                  hnone hcf' hmf' hsome hof']
                exact h1 extra
              · intro q hq
                exact h2 q (setFs_isSome _ _ _ _ hq)
              · intro q n hq
                rcases h3 q n hq with hq' | hd
                · exact setFs_dir_entries _ _ _ _ _ hq'
                · exact Or.inr hd
          · have hsome' := bool_eq_false hsome
            rw [mkdirs_cons_create_nochown env uid gid fs current c rest hnone hcf'
              hmf' hsome'] at h
            rcases ih _ (current ++ [c]) e fsE h with ⟨h1, h2, h3⟩
            refine ⟨?_, ?_, ?_⟩
            · intro extra
              rw [List.cons_append, mkdirs_cons_create_nochown env uid gid fs current c _
                hnone hcf' hmf' hsome']
              exact h1 extra
            · intro q hq
              exact h2 q (setFs_isSome _ _ _ _ hq)
            · intro q n hq
              rcases h3 q n hq with hq' | hd
              · exact setFs_dir_entries _ _ _ _ _ hq'
              · exact Or.inr hd

/-- Claim C8, witness: with `set_permissions` failing on `/a/b/c`, a walk for
`/a/b/c/d` stops at `/a/b/c` with `setPermissionsFailed` no matter how many
components remain, the pre-existing `/a` is still present in the error state,
and the `/a/b` created before the failure remains as a directory. -/
theorem c8_witness :
    mkdirs wEnvFail (some 1000) none wFs []
        ([.rootDir, .normal ['a'], .normal ['b'], .normal ['c']] ++ [.normal ['d']]) =
      .error (.setPermissionsFailed, wFsAfterFail) ∧
    (lookupFs wFsAfterFail wA).isSome = true ∧
    (lookupFs wFs wAB = some (.dir ⟨1000, 0, 493⟩) ∨
      ∃ d, Node.dir ⟨1000, 0, 493⟩ = Node.dir d) :=
  ⟨(c8_walk_aborts_on_first_error wEnvFail (some 1000) none
      [.rootDir, .normal ['a'], .normal ['b'], .normal ['c']] wFs []
      .setPermissionsFailed wFsAfterFail rfl).1 [.normal ['d']],
   (c8_walk_aborts_on_first_error wEnvFail (some 1000) none
      [.rootDir, .normal ['a'], .normal ['b'], .normal ['c']] wFs []
      .setPermissionsFailed wFsAfterFail rfl).2.1 wA (by decide),
   (c8_walk_aborts_on_first_error wEnvFail (some 1000) none
      [.rootDir, .normal ['a'], .normal ['b'], .normal ['c']] wFs []
      .setPermissionsFailed wFsAfterFail rfl).2.2 wAB (.dir ⟨1000, 0, 493⟩) rfl⟩

/-- Claim C3: when the destination already exists as a file, its owner, group
and mode are left unchanged regardless of the `--mode`/`--user`/`--group`
flags: if the run succeeds, the file holds exactly the input bytes under its
ORIGINAL metadata; in every other outcome the file is untouched. -/
theorem c3_existing_file_keeps_metadata (env : RunEnv) (fs : Fs) (args : Args)
    (input : List Nat) (c0 : List Nat) (m0 : FileMeta)
    (hdest : lookupFs fs (parseComps args.destination_path.data) =
      some (.file c0 m0)) :
    (∀ fsOut, run env fs args input = .ok fsOut →
      lookupFs fsOut (parseComps args.destination_path.data) =
        some (.file input m0)) ∧
    (lookupFs (resultFs (run env fs args input))
        (parseComps args.destination_path.data) = some (.file c0 m0) ∨
     lookupFs (resultFs (run env fs args input))
        (parseComps args.destination_path.data) = some (.file input m0)) := by
  rcases run_eq_cases env args input with ⟨e, he⟩ | ⟨target, hv, hrr⟩
  · rw [he fs]
    exact ⟨fun fsOut hout => absurd hout (by simp), Or.inl hdest⟩
  · rw [hrr fs]
    have hpt := (validateDest_ok_parse _ _ hv).1
    have hres := runResolved_dest_file env args target input
      (args.mode.bind parseOctal) (args.user.bind (alookup env.users))
      (args.group.bind (alookup env.groups)) fs c0 m0 (by rw [hpt]; exact hdest)
    rw [hpt] at hres
    exact hres

/-- Claim C3, witness: over `wFsB` (where `/a/b` is a file with content `[9]`,
owner `7:8`, mode `0644`), a run with `--mode 600 --user alice` succeeds and
leaves `/a/b` with the new content `[1, 2, 3]` and the ORIGINAL metadata. -/
theorem c3_witness :
    lookupFs (setFs wFsB wAB (.file [1, 2, 3] ⟨7, 8, 420⟩)) wAB =
      some (.file [1, 2, 3] ⟨7, 8, 420⟩) :=
  (c3_existing_file_keeps_metadata wEnv wFsB
      ⟨"/a/b", some "600", some "alice", none, false⟩ [1, 2, 3] [9] ⟨7, 8, 420⟩
      rfl).1
    (setFs wFsB wAB (.file [1, 2, 3] ⟨7, 8, 420⟩)) (by decide)

/-- Claim C5: when `--makedirs` is absent, or the immediate parent of the
destination already exists, no directory is created and no directory
permissions or ownership are modified — the only path whose entry can change
is the destination itself. -/
theorem c5_makedirs_gating (env : RunEnv) (fs : Fs) (args : Args)
    (input : List Nat)
    (h : args.makedirs = false ∨
      (lookupFs fs ((parseComps args.destination_path.data).dropLast)).isSome = true) :
    ∀ q, q ≠ parseComps args.destination_path.data →
      lookupFs (resultFs (run env fs args input)) q = lookupFs fs q := by
  intro q hq
  rcases run_eq_cases env args input with ⟨e, he⟩ | ⟨target, hv, hrr⟩
  · rw [he fs]; rfl
  · rw [hrr fs]
    have hpt := (validateDest_ok_parse _ _ hv).1
    apply runResolved_skip_frame
    · rw [hpt]; exact h
    · rw [hpt]; exact hq

/-- Claim C5, witness: without `--makedirs`, a successful run writing `/a/b`
leaves the directory `/a` exactly as it was. -/
theorem c5_witness :
    lookupFs (resultFs (run wEnv wFs ⟨"/a/b", none, none, none, false⟩ [3])) wA =
      lookupFs wFs wA :=
  c5_makedirs_gating wEnv wFs ⟨"/a/b", none, none, none, false⟩ [3]
    (Or.inl rfl) wA (by decide)

/-- Claim C6: if the destination validates but the `--mode` string is not valid
octal, or the `--user`/`--group` name does not resolve, the process fails with
the corresponding fatal configuration error and the filesystem is completely
untouched: no directory is created and the destination is not written. -/
theorem c6_config_error_before_mutation (env : RunEnv) (fs : Fs) (args : Args)
    (input : List Nat) (target : String)
    (hv : validateDest args.destination_path = .ok target)
    (h : (∃ m, args.mode = some m ∧ parseOctal m = none) ∨
         (∃ u, args.user = some u ∧ alookup env.users u = none) ∨
         (∃ g, args.group = some g ∧ alookup env.groups g = none)) :
    ∃ e, (e = RunError.invalidMode ∨ e = RunError.unknownUser ∨
          e = RunError.unknownGroup) ∧
      run env fs args input = .error e fs := by
  have hrun : run env fs args input = runWithTarget env fs args target input := by
    unfold run
    rw [hv]
  cases hm : args.mode with
  | some m =>
    cases hpm : parseOctal m with
    | none =>
      refine ⟨.invalidMode, Or.inl rfl, ?_⟩
      rw [hrun]
      simp only [runWithTarget, hm, hpm]
    | some mv =>
      have h23 : (∃ u, args.user = some u ∧ alookup env.users u = none) ∨
          (∃ g, args.group = some g ∧ alookup env.groups g = none) := by
        rcases h with ⟨m', hm', hpm'⟩ | h | h
        · rw [hm] at hm'
          have hmm : m = m' := Option.some.inj hm'
          rw [← hmm] at hpm'
          rw [hpm'] at hpm
          exact absurd hpm (by simp)
        · exact Or.inl h
        · exact Or.inr h
      rcases runWithMode_config_error env args target input (some mv) h23 with
        ⟨e, hor, herr⟩
      refine ⟨e, ?_, ?_⟩
      · rcases hor with h' | h'
        · exact Or.inr (Or.inl h')
        · exact Or.inr (Or.inr h')
      · rw [hrun]
        simp only [runWithTarget, hm, hpm]
        exact herr fs
  | none =>
    have h23 : (∃ u, args.user = some u ∧ alookup env.users u = none) ∨
        (∃ g, args.group = some g ∧ alookup env.groups g = none) := by
      rcases h with ⟨m', hm', _⟩ | h | h
      · rw [hm] at hm'
        exact absurd hm' (by simp)
      · exact Or.inl h
      · exact Or.inr h
    rcases runWithMode_config_error env args target input none h23 with ⟨e, hor, herr⟩
    refine ⟨e, ?_, ?_⟩
    · rcases hor with h' | h'
      · exact Or.inr (Or.inl h')
      · exact Or.inr (Or.inr h')
    · rw [hrun]
      simp only [runWithTarget, hm]
      exact herr fs

/-- Claim C6, witness: the mode string `"-0"` is not valid octal for `u32`
(no `'-'` sign is stripped for an unsigned parse), so the run over `wFs` fails
with a configuration error leaving `wFs` untouched; likewise for the unknown
user `bob`. -/
theorem c6_witness :
    (∃ e, (e = RunError.invalidMode ∨ e = RunError.unknownUser ∨
           e = RunError.unknownGroup) ∧
       run wEnv wFs ⟨"/a/b", some "-0", none, none, false⟩ [] = .error e wFs) ∧
    (∃ e, (e = RunError.invalidMode ∨ e = RunError.unknownUser ∨
           e = RunError.unknownGroup) ∧
       run wEnv wFs ⟨"/a/b", none, some "bob", none, false⟩ [] = .error e wFs) :=
  ⟨c6_config_error_before_mutation wEnv wFs
      ⟨"/a/b", some "-0", none, none, false⟩ [] "/a/b" rfl
      (Or.inl ⟨"-0", rfl, rfl⟩),
   c6_config_error_before_mutation wEnv wFs
      ⟨"/a/b", none, some "bob", none, false⟩ [] "/a/b" rfl
      (Or.inr (Or.inl ⟨"bob", rfl, rfl⟩))⟩

/-- Claim C7: a successful run over a missing destination creates it with
exactly the input bytes, the mode given by `--mode` when present (the process
default otherwise), and the ownership given by `--user`/`--group` when present
(the process identity otherwise) — applied at creation, before the file
appears at the destination. -/
theorem c7_new_file_gets_pending_metadata (env : RunEnv) (fs : Fs) (args : Args)
    (input : List Nat) (fsOut : Fs)
    (hdest : lookupFs fs (parseComps args.destination_path.data) = none)
    (hok : run env fs args input = .ok fsOut) :
    lookupFs fsOut (parseComps args.destination_path.data) =
      some (.file input
        ⟨(args.user.bind (alookup env.users)).getD env.defUid,
         (args.group.bind (alookup env.groups)).getD env.defGid,
         (args.mode.bind parseOctal).getD env.defFileMode⟩) := by
  rcases run_eq_cases env args input with ⟨e, he⟩ | ⟨target, hv, hrr⟩
  · rw [he fs] at hok
    exact absurd hok (by simp)
  · rw [hrr fs] at hok
    have hpt := (validateDest_ok_parse _ _ hv).1
    have hres := runResolved_dest_new env args target input
      (args.mode.bind parseOctal) (args.user.bind (alookup env.users))
      (args.group.bind (alookup env.groups)) fs fsOut
      (by rw [hpt]; exact hdest) hok
    rw [hpt] at hres
    exact hres

/-- Claim C7, witness: writing the missing `/a/b` with
`--mode 640 --user alice --group staff` creates it with content `[5]`, owner
`1000:50` and mode `0640`. -/
theorem c7_witness :
    lookupFs (setFs wFs wAB (.file [5] ⟨1000, 50, 416⟩)) wAB =
      some (.file [5] ⟨1000, 50, 416⟩) :=
  c7_new_file_gets_pending_metadata wEnv wFs
    ⟨"/a/b", some "640", some "alice", some "staff", false⟩ [5]
    (setFs wFs wAB (.file [5] ⟨1000, 50, 416⟩)) rfl (by decide)

/-- Claim C9: running the program twice with identical input bytes, destination
and flags, where the first run succeeds, makes the second run succeed with the
SAME final filesystem — in particular the destination's content and its owner,
group and mode are identical after each run. -/
theorem c9_idempotent (env : RunEnv) (fs : Fs) (args : Args) (input : List Nat)
    (fs1 : Fs) (h1 : run env fs args input = .ok fs1) :
    run env fs1 args input = .ok fs1 := by
  rcases run_eq_cases env args input with ⟨e, he⟩ | ⟨target, hv, hrr⟩
  · rw [he fs] at h1
    exact absurd h1 (by simp)
  · rw [hrr fs] at h1
    rw [hrr fs1]
    exact runResolved_idempotent env args target input _ _ _ fs fs1 h1

/-- Claim C9, witness: a `--makedirs` run creating `/a/b` and the file
`/a/b/c`, repeated over its own output, returns the same filesystem. -/
theorem c9_witness :
    run wEnv
      (setFs (setFs wFs wAB (.dir ⟨1000, 0, 493⟩)) wABC (.file [4] ⟨1000, 0, 384⟩))
      ⟨"/a/b/c", none, some "alice", none, true⟩ [4] =
    .ok (setFs (setFs wFs wAB (.dir ⟨1000, 0, 493⟩)) wABC
      (.file [4] ⟨1000, 0, 384⟩)) :=
  c9_idempotent wEnv wFs ⟨"/a/b/c", none, some "alice", none, true⟩ [4]
    (setFs (setFs wFs wAB (.dir ⟨1000, 0, 493⟩)) wABC (.file [4] ⟨1000, 0, 384⟩))
    (by decide)

/-- Claim C10: the destination `"/"` is absolute and canonical, so validation
accepts it; but with `--makedirs` set, `target_filepath.parent().unwrap()`
unwraps `None` and the process panics, before any directory or file write is
attempted (the filesystem is left untouched). -/
theorem c10_panic_on_root_makedirs :
    validateDest "/" = .ok "/" ∧
    ∀ (env : RunEnv) (fs : Fs) (input : List Nat),
      run env fs ⟨"/", none, none, none, true⟩ input = .panicked fs :=
  ⟨rfl, fun _ _ _ => rfl⟩

end TedgeWrite
